import Mathlib

/-!
A verification development for the model-dashboard repository.

The Lean definitions below are a shallow embedding of the Python sources:

* `src/model_dashboard/models.py` — the `InferenceModel` descriptor schema,
  its enum of network types, and the `validate_fields` model validator;
* `src/model_dashboard/connection.py` — the `ModelDB` repository over a
  MinIO bucket (object listing, cache refresh, get/add/delete/list);
* `src/model_dashboard/auth.py` — the local-credential authenticator and
  the API-token service backed by a SQLite database.

Modelling conventions:

* JSON documents stored in the bucket are modelled structurally rather
  than as byte strings: a stored body either is a well-formed document
  matching the descriptor schema (`ObjBody.valid`) or fails JSON/schema
  validation (`ObjBody.invalid`, carrying its byte size so that the
  zero-size check of `ModelDB.object_exists` is expressible).  A
  serialized descriptor is never the empty byte string.
* `Any`-typed JSON values are modelled by `JVal` (scalars, arrays of
  scalars, flat string-keyed objects) — the shapes the dashboard's
  descriptors actually carry; the code treats these values opaquely
  except for the flat `inference_args` mapping read by the validator.
* Python dicts are modelled as association lists in insertion order;
  dict assignment (`d[k] = v`) replaces in place or appends
  (`dictSet`), matching CPython's insertion-ordered semantics.
* SHA-256 hashing (`hash_password`, `hash_token`) is an explicit
  function parameter `hashFn` of the auth operations: the code only
  compares hashes for equality, never inspects them.
* Wall-clock instants (`datetime.utcnow()`) are `Nat` parameters;
  `timedelta(days = n)` is `n * 86400` seconds.
-/

/-- Scalar JSON values (null, booleans, integers, strings). -/
inductive JScal where
  | jnull
  | jbool (b : Bool)
  | jint (n : Int)
  | jstr (s : String)
  deriving DecidableEq, Repr

/-- JSON values as they occur inside a descriptor: scalars, arrays of
scalars, and flat string-keyed objects (such as the
`inference_information.inference_args` flag mapping). -/
inductive JVal where
  | vnull
  | vbool (b : Bool)
  | vint (n : Int)
  | vstr (s : String)
  | varr (xs : List JScal)
  | vobj (kvs : List (String × JScal))
  deriving DecidableEq, Repr

/-- Python `str(v)` on a scalar value, as used by the f-string
`f'\x7bk\x7d \x7bv\x7d'` in `InferenceModel.validate_fields`. -/
def JScal.pyStr : JScal → String
  | .jnull => "None"
  | .jbool true => "True"
  | .jbool false => "False"
  | .jint n => toString n
  | .jstr s => s

/-- The `NetworkType` string enum of `models.py`. -/
inductive NetworkType where
  | nnUNet
  | nnUNet_v2
  | tensorflow
  | totalsegmentator
  | TotalSegmentatorV2
  | MIST
  | vista3d
  deriving DecidableEq, Repr

/-- `str(network_type)`: the enum's string value (`__str__` returns
`self.value`). -/
def ntStr : NetworkType → String
  | .nnUNet => "nnUNet"
  | .nnUNet_v2 => "nnUNet_v2"
  | .tensorflow => "tensorflow"
  | .totalsegmentator => "totalsegmentator"
  | .TotalSegmentatorV2 => "TotalSegmentatorV2"
  | .MIST => "MIST"
  | .vista3d => "vista3d"

/-- A key of the `contour_names` mapping, typed
`Dict[Union[int,str], Any]` in the schema. -/
inductive CKey where
  | kint (n : Int)
  | kstr (s : String)
  deriving DecidableEq, Repr

/-- JSON object keys are strings: serializing a descriptor renders an
`int` contour key as its decimal string, exactly as
`model_dump_json` / `json.dumps` do. -/
def CKey.toJsonKey : CKey → String
  | .kint n => toString n
  | .kstr s => s

/-- The `InferenceModel` pydantic schema of `models.py`, with the
field defaults of the source.  (The derived SVG-free fields only; the
schema has no others.) -/
structure InferenceModel where
  name : String
  network_type : NetworkType
  enabled : Bool := false
  «alias» : String := ""
  description : String := ""
  contour_names : List (CKey × JVal) := []
  inference_information : List (String × JVal) := []
  inference_args : String := ""
  create_date : String := ""
  last_modified_date : String := ""
  version : String := ""
  deriving DecidableEq, Repr

/-- Python `key.startswith('-')`. -/
def startsWithDash (s : String) : Bool :=
  match s.data with
  | [] => false
  | c :: _ => c = '-'

/-- One iteration of the flag-formatting loop in `validate_fields`:
prefix the flag with `--` unless it already starts with a dash; a
boolean `True` value emits the bare flag, any other value is appended
after a space via `str(v)`. -/
def formatArg (kv : String × JScal) : String :=
  let k := if startsWithDash kv.1 then kv.1 else "--" ++ kv.1
  match kv.2 with
  | .jbool true => k
  | v => k ++ " " ++ v.pyStr

/-- `' '.join(args)` over the formatted flag list, in mapping
(insertion) order. -/
def joinArgs (kvs : List (String × JScal)) : String :=
  String.intercalate " " (kvs.map formatArg)

/-- The `model_validator(mode='after')` named `validate_fields`:
default `alias` to `name` when falsy; when `inference_args` is empty
and `inference_information` holds an `inference_args` mapping,
synthesize `inference_args` as `' ' + ' '.join(args)`.  When the
`inference_args` entry is present but is not a mapping, iterating
`.items()` raises, which pydantic surfaces as a validation error
(`none` here).  The two statements of the validator body are
`applyAlias` and `applyArgs`, run in that order. -/
def applyAlias (m : InferenceModel) : InferenceModel :=
  if m.«alias».isEmpty then { m with «alias» := m.name } else m

/-- The second statement of `validate_fields`, run after the alias
default. -/
def applyArgs (m : InferenceModel) : Option InferenceModel :=
  if m.inference_args.isEmpty then
    match m.inference_information.lookup "inference_args" with
    | some (.vobj kvs) => some { m with inference_args := " " ++ joinArgs kvs }
    | some _ => none
    | none => some m
  else
    some m

def validateFields (m : InferenceModel) : Option InferenceModel :=
  applyArgs (applyAlias m)

/-- The on-the-wire JSON document form of a descriptor, as produced by
`MinioModel.to_bytes` (`model_dump_json`): identical fields, except
that JSON object keys are strings, so `contour_names` keys are
rendered by `CKey.toJsonKey`. -/
structure StoredModel where
  name : String
  network_type : NetworkType
  enabled : Bool
  «alias» : String
  description : String
  contour_names : List (String × JVal)
  inference_information : List (String × JVal)
  inference_args : String
  create_date : String
  last_modified_date : String
  version : String
  deriving DecidableEq, Repr

/-- Serialization `InferenceModel.to_bytes` (`model_dump_json`). -/
def InferenceModel.toStored (m : InferenceModel) : StoredModel :=
  { name := m.name
    network_type := m.network_type
    enabled := m.enabled
    «alias» := m.«alias»
    description := m.description
    contour_names := m.contour_names.map (fun kv => (kv.1.toJsonKey, kv.2))
    inference_information := m.inference_information
    inference_args := m.inference_args
    create_date := m.create_date
    last_modified_date := m.last_modified_date
    version := m.version }

/-- Field-level decoding of a stored document
(`model_validate(json.loads(...))` before the model validator runs):
every JSON object key is a string, and under pydantic's smart union a
string input for a `Union[int,str]` key stays a string. -/
def StoredModel.parse (sm : StoredModel) : InferenceModel :=
  { name := sm.name
    network_type := sm.network_type
    enabled := sm.enabled
    «alias» := sm.«alias»
    description := sm.description
    contour_names := sm.contour_names.map (fun kv => (CKey.kstr kv.1, kv.2))
    inference_information := sm.inference_information
    inference_args := sm.inference_args
    create_date := sm.create_date
    last_modified_date := sm.last_modified_date
    version := sm.version }

/-- `InferenceModel.load` on a stored document: `json.loads` plus
`model_validate`, which runs the field decode and then the
`validate_fields` model validator. -/
def loadStored (sm : StoredModel) : Option InferenceModel :=
  validateFields sm.parse

/-- A descriptor with its `contour_names` keys stringified: the net
effect of one serialize/decode round trip on a descriptor. -/
def stringifyKeys (m : InferenceModel) : InferenceModel :=
  { m with contour_names := m.contour_names.map (fun kv => (CKey.kstr kv.1.toJsonKey, kv.2)) }

/-- Body of an object stored in the bucket: either a well-formed JSON
document matching the descriptor schema, or bytes on which
`InferenceModel.load` raises (ill-formed JSON or a schema violation);
`invalid` carries the byte size so that the zero-size case (`invalid
0`, a zero-byte object) is representable.  A serialized descriptor is
a nonempty JSON document, so `valid` bodies have nonzero size. -/
inductive ObjBody where
  | valid (sm : StoredModel)
  | invalid (size : Nat)
  deriving DecidableEq, Repr

/-- `obj.size != 0`, the truthiness check behind `assert obj.size` in
`ModelDB.object_exists`. -/
def ObjBody.sizeNonzero : ObjBody → Bool
  | .valid _ => true
  | .invalid n => n != 0

/-- One entry of the MinIO bucket listing: object name, the directory
flag reported by `list_objects`, and the stored body. -/
structure BucketObj where
  object_name : String
  is_dir : Bool := false
  body : ObjBody
  deriving DecidableEq, Repr

/-- The bucket, in listing order (object names are unique in an
object store). -/
abbrev Bucket := List BucketObj

/-- The `ModelDB._models` cache: a Python dict from model name to the
result of `get_model` (which is a descriptor, or `None` when the
fetch or validation failed). -/
abbrev Cache := List (String × Option InferenceModel)

/-- The observable state of a `ModelDB`: the bucket contents and the
in-memory cache. -/
structure DBState where
  bucket : Bucket
  cache : Cache
  deriving DecidableEq, Repr

/-- Python dict assignment `d[k] = v`: replace in place when the key
is present, append otherwise. -/
def dictSet (d : List (String × α)) (k : String) (v : α) : List (String × α) :=
  if d.any (fun p => p.1 == k) then
    d.map (fun p => if p.1 == k then (k, v) else p)
  else
    d ++ [(k, v)]

/-- `ModelDB.get_objects()` with defaults: all objects of the bucket,
directory entries excluded. -/
def getObjects (b : Bucket) : List BucketObj :=
  b.filter (fun o => !o.is_dir)

/-- Python `str.split('/')` on the character list: split at every
slash, keeping empty segments (so `\x27\x27.split` gives one empty
segment, `'a//b'.split` gives three segments). -/
def splitSlash : List Char → List (List Char)
  | [] => [[]]
  | c :: cs =>
    if c = '/' then [] :: splitSlash cs
    else
      match splitSlash cs with
      | [] => [[c]]
      | s :: ss => (c :: s) :: ss

/-- `o.object_name.split('/')` unpacked into exactly two variables:
`some (network_type, name)` when the key has exactly two path
segments, `none` when the unpacking raises `ValueError`. -/
def splitKey (s : String) : Option (String × String) :=
  match (splitSlash s.data).map (fun l => String.mk l) with
  | [nt, nm] => some (nt, nm)
  | _ => none

/-- `ModelDB.object_exists(path)`: `stat_object` finds the object and
`assert obj.size` demands a nonzero size; any failure yields
`False`. -/
def objectExists (b : Bucket) (path : String) : Bool :=
  match b.find? (fun o => o.object_name == path) with
  | some o => o.body.sizeNonzero
  | none => false

/-- `ModelDB.get_model(name, network_type)`: assert existence (a
missing or zero-byte object fails the assert), fetch the body, and
`InferenceModel.load` it; every failure is caught, logged and
surfaced as `None`.  `network_type` is a plain string here — in
`update_models` it is a raw key segment. -/
def getModel (b : Bucket) (name network_type : String) : Option InferenceModel :=
  let path := network_type ++ "/" ++ name
  if objectExists b path then
    match b.find? (fun o => o.object_name == path) with
    | some o =>
      match o.body with
      | .valid sm => loadStored sm
      | .invalid _ => none
    | none => none
  else
    none

/-- `ModelDB.update_models()`: rebuild the cache from scratch; for
each listed object, split the key into two segments and store
`get_model name network_type` under `name`; objects whose key does
not split into exactly two segments raise and are skipped. -/
def updateModels (b : Bucket) : Cache :=
  (getObjects b).foldl
    (fun cache o =>
      match splitKey o.object_name with
      | some (nt, nm) => dictSet cache nm (getModel b nm nt)
      | none => cache)
    []

/-- MinIO `put_object`: overwrite the object at `path` in place, or
create it. -/
def putObject (b : Bucket) (path : String) (body : ObjBody) : Bucket :=
  if b.any (fun o => o.object_name == path) then
    b.map (fun o => if o.object_name == path then ⟨path, false, body⟩ else o)
  else
    b ++ [⟨path, false, body⟩]

/-- The composite storage key `f'\x7bm.network_type\x7d/\x7bm.name\x7d'`. -/
def modelPath (m : InferenceModel) : String :=
  ntStr m.network_type ++ "/" ++ m.name

/-- `ModelDB.add_model(model, overwrite)` on an already-validated
descriptor: when `overwrite` is false and a (nonzero-size) object
already exists at the composite key, return success without writing;
otherwise serialize, `put_object`, and set the cache entry under
`m.name`.  Returns the success flag and the resulting state. -/
def addModel (s : DBState) (m : InferenceModel) (overwrite : Bool) : Bool × DBState :=
  let path := modelPath m
  if !overwrite && objectExists s.bucket path then
    (true, s)
  else
    (true,
      { bucket := putObject s.bucket path (.valid m.toStored)
        cache := dictSet s.cache m.name (some m) })

/-- Code-point comparison of characters, Python's `<` on single
characters. -/
def strLtB : List Char → List Char → Bool
  | [], [] => false
  | [], _ :: _ => true
  | _ :: _, [] => false
  | a :: as, b :: bs =>
    if a.toNat < b.toNat then true
    else if b.toNat < a.toNat then false
    else strLtB as bs

/-- Python string `<`: lexicographic comparison by code point. -/
def strLt (a b : String) : Bool := strLtB a.data b.data

/-- The sort key of `ModelDB.model_list`:
`(x.network_type, x.name)` with the string-enum compared as its
string value. -/
def modelKey (m : InferenceModel) : String × String :=
  (ntStr m.network_type, m.name)

/-- Python tuple `<=` on the sort keys: strict on the first
component, then `<=` on the second. -/
def modelLe (a b : InferenceModel) : Prop :=
  strLt (modelKey a).1 (modelKey b).1 = true ∨
    ((modelKey a).1 = (modelKey b).1 ∧ strLt (modelKey b).2 (modelKey a).2 = false)

instance : DecidableRel modelLe := fun a b => by
  unfold modelLe
  infer_instance

/-- `ModelDB.model_list`:
`sorted(self.models.values(), key = ...)` — a stable sort of the
cached values by `(network_type, name)`.  `sorted` applies the key
function to every element, so it raises (`None.network_type`) as soon
as any cached value is `None`; that failure is `none` here.
`List.insertionSort` is a stable sort and therefore computes the same
list as CPython's stable `sorted` for this total preorder. -/
def modelList (c : Cache) : Option (List InferenceModel) :=
  (c.mapM (fun p => Prod.snd p)).map (fun vs => vs.insertionSort modelLe)

/-- A row of the `users` table (`username` is UNIQUE). -/
structure UserRec where
  username : String
  password_hash : String
  display_name : String
  email : String
  is_active : Bool
  deriving DecidableEq, Repr

/-- A row of the `api_tokens` table (`token_hash` is UNIQUE;
`expires_at` and `last_used_at` are nullable timestamps, a `none`
also standing for an empty — falsy — stored value). -/
structure TokenRec where
  username : String
  token_hash : String
  description : String
  expires_at : Option Nat
  last_used_at : Option Nat
  deriving DecidableEq, Repr

/-- The SQLite credential store: the `users` and `api_tokens` tables,
rows in insertion order. -/
structure AuthDB where
  users : List UserRec
  tokens : List TokenRec
  deriving DecidableEq, Repr

/-- The `User` dataclass of `auth.py`, the identity produced by a
successful authentication or token validation.  (The derived
`avatar` SVG string is presentation glue and is not modelled.) -/
structure User where
  username : String
  display_name : String
  email : String
  auth_type : String
  groups : List String
  deriving DecidableEq, Repr

/-- The env default `API_TOKEN_EXPIRY_DAYS = 30`. -/
def apiTokenExpiryDays : Nat := 30

/-- `authenticate_local(username, password)`: a single SELECT matching
both the username and the hash of the supplied password; no row gives
the generic rejection, an inactive matched row gives the disabled
message, otherwise a `local` identity is produced. -/
def authenticateLocal (hashFn : String → String) (db : AuthDB) (username password : String) :
    Bool × Option User × String :=
  let password_hash := hashFn password
  match db.users.find? (fun u => u.username == username && u.password_hash == password_hash) with
  | none => (false, none, "Invalid username or password")
  | some u =>
    if !u.is_active then
      (false, none, "User account is disabled")
    else
      (true, some ⟨u.username, u.display_name, u.email, "local", ["local-users"]⟩, "")

/-- The join of `validate_api_token`'s SELECT: the token row with the
given hash whose owning user (`JOIN users ON t.username = u.username`)
is active, together with that user row.  Both join columns are UNIQUE
in the schema, so at most one row matches. -/
def tokenJoin (db : AuthDB) (h : String) : Option (TokenRec × UserRec) :=
  db.tokens.findSome? (fun t =>
    if t.token_hash == h then
      match db.users.find? (fun u => u.username == t.username) with
      | some u => if u.is_active then some (t, u) else none
      | none => none
    else none)

/-- `validate_api_token(token)`.  The whole body sits in one
`try/except`: hash the token, run the join SELECT, reject when no row
matches, reject as expired when `expires_at` is truthy and `now`
exceeds it, then UPDATE `last_used_at` and commit before building the
identity.  `updateOk` models whether that UPDATE/commit raises; when
it raises, the `except` clause returns a rejection whose message
starts with `Token validation error` (exception text elided).
Returns the result triple and the resulting store. -/
def validateApiToken (hashFn : String → String) (db : AuthDB) (now : Nat) (updateOk : Bool)
    (token : String) : (Bool × Option User × String) × AuthDB :=
  let token_hash := hashFn token
  match tokenJoin db token_hash with
  | none => ((false, none, "Invalid API token"), db)
  | some (t, u) =>
    let afterExpiry : (Bool × Option User × String) × AuthDB :=
      if updateOk then
        ((true, some ⟨t.username, u.display_name, u.email, "api_token", ["api-users"]⟩, ""),
          { db with
            tokens := db.tokens.map (fun r =>
              if r.token_hash == token_hash then { r with last_used_at := some now } else r) })
      else
        ((false, none, "Token validation error"), db)
    match t.expires_at with
    | some expires_at =>
      if now > expires_at then ((false, none, "API token has expired"), db)
      else afterExpiry
    | none => afterExpiry

/-- `create_api_token(username, description)`.  The generated
`secrets.token_urlsafe(32)` value is the explicit `rawToken`
parameter.  Requires an existing active user; INSERTs a row whose
`expires_at` is `now + API_TOKEN_EXPIRY_DAYS` days; a UNIQUE
violation on `token_hash` raises and is caught by the generic
`except` (`Error creating token`).  Returns `(success, token,
message)` and the resulting store. -/
def createApiToken (hashFn : String → String) (db : AuthDB) (now : Nat)
    (username description rawToken : String) : (Bool × String × String) × AuthDB :=
  match db.users.find? (fun u => u.username == username && u.is_active) with
  | none => ((false, "", "User not found or inactive"), db)
  | some _ =>
    let token_hash := hashFn rawToken
    if db.tokens.any (fun t => t.token_hash == token_hash) then
      ((false, "", "Error creating token"), db)
    else
      ((true, rawToken, "API token created successfully"),
        { db with
          tokens := db.tokens ++
            [⟨username, token_hash, description, some (now + apiTokenExpiryDays * 86400), none⟩] })

/-- `revoke_api_token(token)`: DELETE by hash; `rowcount == 0` gives
`Token not found`. -/
def revokeApiToken (hashFn : String → String) (db : AuthDB) (token : String) :
    (Bool × String) × AuthDB :=
  let token_hash := hashFn token
  if db.tokens.any (fun t => t.token_hash == token_hash) then
    ((true, "Token revoked successfully"),
      { db with tokens := db.tokens.filter (fun t => !(t.token_hash == token_hash)) })
  else
    ((false, "Token not found"), db)

/-- A stored document under key `nnUNet/foo` (descriptor name `foo`,
network type `nnUNet`). -/
def smFooNNUNet : StoredModel :=
  { name := "foo", network_type := .nnUNet, enabled := false, «alias» := "foo",
    description := "one", contour_names := [], inference_information := [],
    inference_args := "", create_date := "", last_modified_date := "", version := "" }

/-- A stored document under key `tensorflow/foo` (same name `foo`,
different network type). -/
def smFooTF : StoredModel :=
  { name := "foo", network_type := .tensorflow, enabled := false, «alias» := "foo",
    description := "two", contour_names := [], inference_information := [],
    inference_args := "", create_date := "", last_modified_date := "", version := "" }

/-- A bucket holding two descriptors with the same name and different
network types, under their composite keys, in MinIO listing
(lexicographic) order. -/
def bkSameName : Bucket :=
  [⟨"nnUNet/foo", false, .valid smFooNNUNet⟩,
   ⟨"tensorflow/foo", false, .valid smFooTF⟩]

/-- A bucket whose single object has a well-formed two-segment key but
a body that fails schema validation (7 bytes of junk). -/
def bkBadBody : Bucket :=
  [⟨"nnUNet/bad", false, .invalid 7⟩]

/-- A descriptor whose `inference_args` is empty and whose
`inference_information.inference_args` is the mapping of the
normalization example. -/
def exNormalize : InferenceModel :=
  { name := "m", network_type := .nnUNet,
    inference_information :=
      [("inference_args", .vobj [("fold", .jstr "all"), ("--save_npz", .jbool true)])] }

/-- A credential store with one active user owning one stored,
unexpired token (hash `h`, expiry instant 100). -/
def dbTokenAlice : AuthDB :=
  ⟨[⟨"alice", "ph", "Alice", "a@x", true⟩],
   [⟨"alice", "h", "ci", some 100, none⟩]⟩

/-- A credential store with one active user owning a token row whose
`expires_at` is NULL. -/
def dbNullExpiry : AuthDB :=
  ⟨[⟨"alice", "ph", "Alice", "a@x", true⟩],
   [⟨"alice", "h", "", none, none⟩]⟩

/-- A credential store with one active user and no tokens. -/
def dbAliceOnly : AuthDB :=
  ⟨[⟨"alice", "Hpw", "Alice", "a@x", true⟩], []⟩

/-- A plain descriptor `foo`/`nnUNet` with no contour names. -/
def dFoo : InferenceModel :=
  { name := "foo", network_type := .nnUNet, «alias» := "foo" }

/-- A repository state whose bucket holds a zero-byte object at
`dFoo`'s composite key `nnUNet/foo`. -/
def stZeroByte : DBState :=
  ⟨[⟨"nnUNet/foo", false, .invalid 0⟩], []⟩

/-- A repository state whose bucket holds a valid serialized `dFoo`
at its composite key. -/
def stFooStored : DBState :=
  ⟨[⟨"nnUNet/foo", false, .valid dFoo.toStored⟩], []⟩

/-- A descriptor with an integer contour key. -/
def dIntKey : InferenceModel :=
  { name := "foo", network_type := .nnUNet, «alias» := "foo",
    contour_names := [(.kint 1, .vstr "GTV")] }

/-- A descriptor with string contour keys only. -/
def dStrKey : InferenceModel :=
  { name := "foo", network_type := .nnUNet, «alias» := "foo",
    contour_names := [(.kstr "a", .vstr "GTV")] }

/-- Descriptor `a`/`nnUNet`. -/
def dNameA : InferenceModel := { name := "a", network_type := .nnUNet, «alias» := "a" }

/-- Descriptor `b`/`nnUNet`. -/
def dNameB : InferenceModel := { name := "b", network_type := .nnUNet, «alias» := "b" }

/-- A cache holding `dNameB` and `dNameA`, inserted in reverse sort
order. -/
def cacheBA : Cache := [("b", some dNameB), ("a", some dNameA)]


/-- C3 (amended): for every descriptor validated with empty
`inference_args` and `inference_information.inference_args =
\x7b"fold": "all", "--save_npz": true\x7d`, the derived `inference_args`
equals `" --fold all --save_npz"` — a single leading space, then the
flags joined by single spaces: each flag prefixed with `--` unless it
already starts with a dash, a boolean-true value emitting the bare
flag, in mapping insertion order. -/
theorem C3_inference_args_normalized (m : InferenceModel)
    (h1 : m.inference_args = "")
    (h2 : m.inference_information.lookup "inference_args" =
      some (.vobj [("fold", .jstr "all"), ("--save_npz", .jbool true)])) :
    Option.map (fun r => r.inference_args) (validateFields m) =
      some " --fold all --save_npz" := by
  have ha : (applyAlias m).inference_args = m.inference_args := by
    unfold applyAlias; split <;> rfl
  have hi : (applyAlias m).inference_information = m.inference_information := by
    unfold applyAlias; split <;> rfl
  unfold validateFields applyArgs
  rw [ha, h1, hi, h2]
  rfl

/-- Witness for C3 at the concrete descriptor `exNormalize`. -/
theorem C3_witness :
    exNormalize.inference_args = "" ∧
    Option.map (fun r => r.inference_args) (validateFields exNormalize) =
      some " --fold all --save_npz" :=
  ⟨rfl, C3_inference_args_normalized exNormalize rfl rfl⟩

/-- C3 counterexample: on the example mapping the derived string is
not `"--fold all --save_npz"` — the code prepends a space
(`' ' + ' '.join(args)`). -/
theorem C3_counterexample :
    Option.map (fun r => r.inference_args) (validateFields exNormalize) ≠
      some "--fold all --save_npz" := by decide

/-- C4: the `last_used_at` UPDATE sits inside the same `try/except`
as the whole validation, so on the very state where validation
succeeds (stored unexpired token, active owner), a failing update
turns the result into a rejection — contradicting the claim. -/
theorem C4_update_failure_rejects_validation :
    (validateApiToken (fun s => s) dbTokenAlice 50 false "h").1 =
      (false, none, "Token validation error") ∧
    (validateApiToken (fun s => s) dbTokenAlice 50 true "h").1 =
      (true, some ⟨"alice", "Alice", "a@x", "api_token", ["api-users"]⟩, "") := by decide

/-- C7: `authenticate_local` answers the no-such-username case and
the wrong-password case with the identical rejection triple
`(False, None, "Invalid username or password")`, so the two are
indistinguishable to the caller; and it produces the distinct
disabled message only when the supplied password's hash matches the
stored hash of an existing inactive user. -/
theorem C7_rejection_indistinguishable (hashFn : String → String) (db : AuthDB)
    (username password : String) :
    ((∀ u ∈ db.users, u.username ≠ username) →
        authenticateLocal hashFn db username password =
          (false, none, "Invalid username or password")) ∧
    ((∀ u ∈ db.users, u.username = username → u.password_hash ≠ hashFn password) →
        authenticateLocal hashFn db username password =
          (false, none, "Invalid username or password")) ∧
    (∀ res, authenticateLocal hashFn db username password = res →
      res.2.2 = "User account is disabled" →
      ∃ u ∈ db.users, u.username = username ∧ u.password_hash = hashFn password ∧
        u.is_active = false) := by
  refine ⟨?_, ?_, ?_⟩
  · intro hno
    have hfind : db.users.find?
        (fun u => u.username == username && u.password_hash == hashFn password) = none := by
      rw [List.find?_eq_none]
      intro u hu
      simp only [Bool.and_eq_true, beq_iff_eq, not_and]
      intro h _
      exact hno u hu h
    simp only [authenticateLocal]
    rw [hfind]
  · intro hwrong
    have hfind : db.users.find?
        (fun u => u.username == username && u.password_hash == hashFn password) = none := by
      rw [List.find?_eq_none]
      intro u hu
      simp only [Bool.and_eq_true, beq_iff_eq, not_and]
      intro h1 h2
      exact hwrong u hu h1 h2
    simp only [authenticateLocal]
    rw [hfind]
  · intro res hres hmsg
    simp only [authenticateLocal] at hres
    cases hfind : db.users.find?
        (fun u => u.username == username && u.password_hash == hashFn password) with
    | none =>
      rw [hfind] at hres
      rw [← hres] at hmsg
      simp at hmsg
    | some u =>
      rw [hfind] at hres
      have hp := List.find?_some hfind
      simp only [Bool.and_eq_true, beq_iff_eq] at hp
      by_cases hact : u.is_active
      · simp [hact] at hres
        rw [← hres] at hmsg
        simp at hmsg
      · exact ⟨u, List.mem_of_find?_eq_some hfind, hp.1, hp.2, by simpa using hact⟩

/-- Witness for C7: both rejection branches evaluated at a concrete
store. -/
theorem C7_witness :
    authenticateLocal (fun s => "H" ++ s) dbAliceOnly "bob" "pw" =
      (false, none, "Invalid username or password") ∧
    authenticateLocal (fun s => "H" ++ s) dbAliceOnly "alice" "wrong" =
      (false, none, "Invalid username or password") :=
  ⟨(C7_rejection_indistinguishable (fun s => "H" ++ s) dbAliceOnly "bob" "pw").1
      (by decide),
   (C7_rejection_indistinguishable (fun s => "H" ++ s) dbAliceOnly "alice" "wrong").2.1
      (by decide)⟩

/-- C10: a stored token row whose `expires_at` is NULL (or an empty,
falsy value) skips the expiry branch entirely: whenever the hash
matches a row whose owning user is active, validation succeeds at
every instant; yet `create_api_token` always sets `expires_at` to
`now + API_TOKEN_EXPIRY_DAYS` days on the rows it inserts. -/
theorem C10_null_expiry_token_never_expires
    (hashFn : String → String) (db : AuthDB) (token : String) (now : Nat)
    (t : TokenRec) (u : UserRec)
    (hjoin : tokenJoin db (hashFn token) = some (t, u))
    (hexp : t.expires_at = none) :
    (validateApiToken hashFn db now true token).1 =
      (true, some ⟨t.username, u.display_name, u.email, "api_token", ["api-users"]⟩, "") ∧
    (∀ (db2 : AuthDB) (now2 : Nat) (un desc raw : String),
      (createApiToken hashFn db2 now2 un desc raw).1.1 = true →
      ∃ r ∈ ((createApiToken hashFn db2 now2 un desc raw).2).tokens,
        r.token_hash = hashFn raw ∧
          r.expires_at = some (now2 + apiTokenExpiryDays * 86400)) := by
  constructor
  · simp [validateApiToken, hjoin, hexp]
  · intro db2 now2 un desc raw hsucc
    simp only [createApiToken] at hsucc ⊢
    cases hfind : db2.users.find? (fun v => v.username == un && v.is_active) with
    | none => rw [hfind] at hsucc; simp at hsucc
    | some u2 =>
      rw [hfind] at hsucc
      by_cases hany : db2.tokens.any (fun r => r.token_hash == hashFn raw)
      · simp [hany] at hsucc
      · simp only [Bool.not_eq_true] at hany
        simp only [hany, Bool.false_eq_true, if_false]
        exact ⟨⟨un, hashFn raw, desc, some (now2 + apiTokenExpiryDays * 86400), none⟩,
          by simp, rfl, rfl⟩

/-- Witness for C10 at a concrete store whose token row has a NULL
expiry, validated at a large instant. -/
theorem C10_witness :
    (validateApiToken (fun s => s) dbNullExpiry 999999999 true "h").1 =
      (true, some ⟨"alice", "Alice", "a@x", "api_token", ["api-users"]⟩, "") :=
  (C10_null_expiry_token_never_expires (fun s => s) dbNullExpiry "h" 999999999
    ⟨"alice", "h", "", none, none⟩ ⟨"alice", "ph", "Alice", "a@x", true⟩
    (by decide) rfl).1

/-- C5 (amended): for every descriptor whose composite key holds a
nonzero-size object, `add_model` with `overwrite = False` returns
success without writing — bucket and cache unchanged — and calling it
twice in a row returns success both times with the state after the
second call equal to the state after the first.  (`object_exists`
treats a zero-byte object as absent, so the non-empty hypothesis is
required: see the counterexample.) -/
theorem C5_add_without_overwrite_noop (s : DBState) (m : InferenceModel)
    (h : objectExists s.bucket (modelPath m) = true) :
    addModel s m false = (true, s) ∧
    addModel (addModel s m false).2 m false = (true, (addModel s m false).2) := by
  have h1 : addModel s m false = (true, s) := by
    simp only [addModel, h, Bool.not_false, Bool.true_and, if_true]
  exact ⟨h1, by rw [h1]; exact h1⟩

/-- Witness for C5 at a state holding a valid serialized `dFoo` at
its composite key. -/
theorem C5_witness :
    objectExists stFooStored.bucket (modelPath dFoo) = true ∧
    addModel stFooStored dFoo false = (true, stFooStored) :=
  ⟨by decide, (C5_add_without_overwrite_noop stFooStored dFoo (by decide)).1⟩

/-- C5 counterexample: a zero-byte object occupies `dFoo`'s composite
key, so the key "already holds an object", yet `add_model(d,
overwrite=False)` writes: `object_exists` fails its `assert obj.size`
and reports the object absent, and the stored content changes. -/
theorem C5_counterexample :
    (addModel stZeroByte dFoo false).1 = true ∧
    (addModel stZeroByte dFoo false).2.bucket ≠ stZeroByte.bucket := by decide


/-- Under the UNIQUE constraint on `users.username`, the user found
by `username = ? AND is_active = 1` is also the row found by
`username = ?` alone (as in `validate_api_token`'s join). -/
theorem find_username_of_find_active (l : List UserRec) (un : String) (u0 : UserRec)
    (hnd : l.Pairwise (fun a b => a.username ≠ b.username))
    (hf : l.find? (fun v => v.username == un && v.is_active) = some u0) :
    l.find? (fun v => v.username == un) = some u0 := by
  induction l with
  | nil => simp at hf
  | cons u t ih =>
    rw [List.pairwise_cons] at hnd
    by_cases hu : u.username = un
    · by_cases hact : u.is_active
      · rw [@List.find?_cons_of_pos _ (fun v => v.username == un && v.is_active) u t
          (by simp [hu, hact])] at hf
        rw [@List.find?_cons_of_pos _ (fun v => v.username == un) u t (by simp [hu])]
        exact hf
      · rw [@List.find?_cons_of_neg _ (fun v => v.username == un && v.is_active) u t
          (by simp [hact])] at hf
        have hmem := List.mem_of_find?_eq_some hf
        have hq := List.find?_some hf
        simp only [Bool.and_eq_true, beq_iff_eq] at hq
        exact absurd (hu.trans hq.1.symm) (hnd.1 u0 hmem)
    · rw [@List.find?_cons_of_neg _ (fun v => v.username == un && v.is_active) u t
        (by simp [hu])] at hf
      rw [@List.find?_cons_of_neg _ (fun v => v.username == un) u t (by simp [hu])]
      exact ih hnd.2 hf

/-- C6: a token issued by `create_api_token` for an active user (in a
store with UNIQUE usernames) validates successfully at every instant
strictly before its `expires_at`; it is rejected as expired at every
instant after `expires_at`; revoking it succeeds, and after the
revocation it is rejected as not found (`Invalid API token`) at every
instant. -/
theorem C6_token_lifecycle (hashFn : String → String) (db : AuthDB)
    (now0 : Nat) (un desc raw msg : String) (db2 : AuthDB)
    (husers : db.users.Pairwise (fun a b => a.username ≠ b.username))
    (hissue : createApiToken hashFn db now0 un desc raw = ((true, raw, msg), db2)) :
    (∀ tm, tm < now0 + apiTokenExpiryDays * 86400 →
      ∃ u : User, (validateApiToken hashFn db2 tm true raw).1 = (true, some u, "") ∧
        u.username = un) ∧
    (∀ tm, tm > now0 + apiTokenExpiryDays * 86400 →
      (validateApiToken hashFn db2 tm true raw).1 =
        (false, none, "API token has expired")) ∧
    (revokeApiToken hashFn db2 raw).1 = (true, "Token revoked successfully") ∧
    (∀ tm updateOk,
      (validateApiToken hashFn ((revokeApiToken hashFn db2 raw).2) tm updateOk raw).1 =
        (false, none, "Invalid API token")) := by
  simp only [createApiToken] at hissue
  cases hfind : db.users.find? (fun v => v.username == un && v.is_active) with
  | none => rw [hfind] at hissue; simp at hissue
  | some u0 =>
    rw [hfind] at hissue
    by_cases hany : db.tokens.any (fun r => r.token_hash == hashFn raw)
    · simp [hany] at hissue
    · simp only [Bool.not_eq_true] at hany
      simp only [hany, Bool.false_eq_true, if_false] at hissue
      have hdb2 := congrArg Prod.snd hissue
      subst hdb2
      have hu0 := List.find?_some hfind
      simp only [Bool.and_eq_true, beq_iff_eq] at hu0
      have hnotok : ∀ r ∈ db.tokens, (r.token_hash == hashFn raw) = false := by
        intro r hr
        simpa using List.any_eq_false.mp hany r hr
      have hfindname : db.users.find? (fun v => v.username == un) = some u0 :=
        find_username_of_find_active db.users un u0 husers hfind
      have hjoin : tokenJoin { users := db.users, tokens := db.tokens ++ [(⟨un, hashFn raw, desc, some (now0 + apiTokenExpiryDays * 86400), none⟩ : TokenRec)] } (hashFn raw) = some (⟨un, hashFn raw, desc, some (now0 + apiTokenExpiryDays * 86400), none⟩, u0) := by
        simp only [tokenJoin]
        rw [List.findSome?_append]
        have h1 : db.tokens.findSome? (fun t =>
            if t.token_hash == hashFn raw then
              match db.users.find? (fun u => u.username == t.username) with
              | some u => if u.is_active then some (t, u) else none
              | none => none
            else none) = none := by
          rw [List.findSome?_eq_none_iff]
          intro t ht
          simp [hnotok t ht]
        rw [h1]
        simp [List.findSome?, hfindname, hu0.2]
      refine ⟨?_, ?_, ?_, ?_⟩
      · intro tm htm
        refine ⟨⟨un, u0.display_name, u0.email, "api_token", ["api-users"]⟩, ?_, rfl⟩
        have hne : ¬ (tm > now0 + apiTokenExpiryDays * 86400) := by omega
        simp [validateApiToken, hjoin, hne]
      · intro tm htm
        simp [validateApiToken, hjoin, htm]
      · have ha : ((db.tokens ++ [(⟨un, hashFn raw, desc, some (now0 + apiTokenExpiryDays * 86400), none⟩ : TokenRec)]).any (fun t => t.token_hash == hashFn raw)) = true := by
          simp [List.any_append]
        simp [revokeApiToken, ha]
      · intro tm updateOk
        have ha : ((db.tokens ++ [(⟨un, hashFn raw, desc, some (now0 + apiTokenExpiryDays * 86400), none⟩ : TokenRec)]).any (fun t => t.token_hash == hashFn raw)) = true := by
          simp [List.any_append]
        have hjoin2 : tokenJoin ((revokeApiToken hashFn { users := db.users, tokens := db.tokens ++ [(⟨un, hashFn raw, desc, some (now0 + apiTokenExpiryDays * 86400), none⟩ : TokenRec)] } raw).2) (hashFn raw) = none := by
          simp only [revokeApiToken, ha, if_true]
          simp only [tokenJoin]
          rw [List.findSome?_eq_none_iff]
          intro t ht
          rw [List.mem_filter] at ht
          have hf2 : (t.token_hash == hashFn raw) = false := by
            simpa using ht.2
          simp [hf2]
        simp [validateApiToken, hjoin2]

/-- Witness for C6: a concrete issue/validate/expire/revoke run from
a one-user store at instant 0 (expiry lands at 2592000). -/
theorem C6_witness :
    (∃ u : User, (validateApiToken (fun s => s) ⟨[⟨"alice", "Hpw", "Alice", "a@x", true⟩], [⟨"alice", "tok", "ci", some 2592000, none⟩]⟩ 5 true "tok").1 = (true, some u, "") ∧ u.username = "alice") ∧
    (validateApiToken (fun s => s) ⟨[⟨"alice", "Hpw", "Alice", "a@x", true⟩], [⟨"alice", "tok", "ci", some 2592000, none⟩]⟩ 2592001 true "tok").1 = (false, none, "API token has expired") ∧
    (∀ updateOk, (validateApiToken (fun s => s) ((revokeApiToken (fun s => s) ⟨[⟨"alice", "Hpw", "Alice", "a@x", true⟩], [⟨"alice", "tok", "ci", some 2592000, none⟩]⟩ "tok").2) 7 updateOk "tok").1 = (false, none, "Invalid API token")) := by
  have h := C6_token_lifecycle (fun s => s) dbAliceOnly 0 "alice" "ci" "tok"
    "API token created successfully"
    ⟨[⟨"alice", "Hpw", "Alice", "a@x", true⟩], [⟨"alice", "tok", "ci", some 2592000, none⟩]⟩
    (by decide) (by decide)
  exact ⟨h.1 5 (by decide), h.2.1 2592001 (by decide), fun updateOk => h.2.2.2 7 updateOk⟩

/-- An entry of `dictSet d k v` is an old entry of `d` or the new
binding `(k, v)`. -/
theorem mem_dictSet {α : Type} {d : List (String × α)} {k : String} {v : α}
    {nm : String} {w : α} (h : (nm, w) ∈ dictSet d k v) :
    (nm, w) ∈ d ∨ (nm = k ∧ w = v) := by
  unfold dictSet at h
  by_cases hc : d.any (fun p => p.1 == k)
  · rw [if_pos hc] at h
    rcases List.mem_map.mp h with ⟨p, hp, he⟩
    by_cases hk : (p.1 == k) = true
    · rw [if_pos hk] at he
      injection he with h1 h2
      exact Or.inr ⟨h1.symm, h2.symm⟩
    · rw [if_neg hk] at he
      exact Or.inl (he ▸ hp)
  · rw [if_neg hc] at h
    rcases List.mem_append.mp h with h1 | h2
    · exact Or.inl h1
    · have := List.mem_singleton.mp h2
      injection this with h1 h2
      exact Or.inr ⟨h1, h2⟩

/-- After `dictSet d k v` the key `k` is present. -/
theorem key_mem_dictSet {α : Type} (d : List (String × α)) (k : String) (v : α) :
    k ∈ (dictSet d k v).map Prod.fst := by
  unfold dictSet
  by_cases hc : d.any (fun p => p.1 == k)
  · rw [if_pos hc]
    rcases List.any_eq_true.mp hc with ⟨p, hp, hpk⟩
    exact List.mem_map.mpr ⟨(k, v), List.mem_map.mpr ⟨p, hp, by rw [if_pos hpk]⟩, rfl⟩
  · rw [if_neg hc, List.map_append]
    simp

/-- `dictSet` keeps every existing key. -/
theorem keys_sub_dictSet {α : Type} {d : List (String × α)} (k : String) (v : α)
    {nm : String} (h : nm ∈ d.map Prod.fst) :
    nm ∈ (dictSet d k v).map Prod.fst := by
  unfold dictSet
  by_cases hc : d.any (fun p => p.1 == k)
  · rw [if_pos hc]
    rcases List.mem_map.mp h with ⟨p, hp, hfst⟩
    by_cases hk : (p.1 == k) = true
    · refine List.mem_map.mpr ⟨(k, v), List.mem_map.mpr ⟨p, hp, by rw [if_pos hk]⟩, ?_⟩
      have : p.1 = k := by simpa using hk
      rw [← hfst, this]
    · exact List.mem_map.mpr ⟨p, List.mem_map.mpr ⟨p, hp, by rw [if_neg hk]⟩, hfst⟩
  · rw [if_neg hc, List.map_append]
    exact List.mem_append_left _ h

/-- `dictSet` preserves distinctness of the keys. -/
theorem nodup_keys_dictSet {α : Type} {d : List (String × α)} (k : String) (v : α)
    (h : (d.map Prod.fst).Nodup) : ((dictSet d k v).map Prod.fst).Nodup := by
  unfold dictSet
  by_cases hc : d.any (fun p => p.1 == k)
  · rw [if_pos hc]
    have heq : (d.map (fun p => if p.1 == k then (k, v) else p)).map Prod.fst =
        d.map Prod.fst := by
      rw [List.map_map]
      apply List.map_congr_left
      intro p hp
      by_cases hk : (p.1 == k) = true
      · simp only [Function.comp]
        rw [if_pos hk]
        have : p.1 = k := by simpa using hk
        exact this.symm
      · simp only [Function.comp]
        rw [if_neg hk]
    rw [heq]
    exact h
  · rw [if_neg hc, List.map_append]
    rw [List.nodup_append]
    refine ⟨h, by simp, ?_⟩
    intro a ha hb
    have ha2 : a = k := by simpa using hb
    rcases List.mem_map.mp ha with ⟨p, hp, hfst⟩
    have hcf : d.any (fun q => q.1 == k) = false := (Bool.not_eq_true _) ▸ hc
    have hne := List.any_eq_false.mp hcf p hp
    simp only [beq_iff_eq] at hne
    exact hne (hfst.trans ha2)

/-- A present key has an entry. -/
theorem mem_of_key_mem {α : Type} {d : List (String × α)} {nm : String}
    (h : nm ∈ d.map Prod.fst) : ∃ v, (nm, v) ∈ d := by
  rcases List.mem_map.mp h with ⟨p, hp, hfst⟩
  exact ⟨p.2, by rw [← hfst]; exact hp⟩

/-- Invariant of the `update_models` loop: every cache entry's value
is the `get_model` result for a name obtained by splitting some listed
object's key into exactly two segments. -/
theorem foldl_update_mem (b : Bucket) (l : List BucketObj) (acc : Cache)
    (hacc : ∀ nm v, (nm, v) ∈ acc →
      ∃ o ∈ getObjects b, ∃ nt, splitKey o.object_name = some (nt, nm) ∧
        v = getModel b nm nt)
    (hl : ∀ o ∈ l, o ∈ getObjects b) :
    ∀ nm v, (nm, v) ∈ l.foldl (fun cache o =>
        match splitKey o.object_name with
        | some (nt, nm2) => dictSet cache nm2 (getModel b nm2 nt)
        | none => cache) acc →
      ∃ o ∈ getObjects b, ∃ nt, splitKey o.object_name = some (nt, nm) ∧
        v = getModel b nm nt := by
  induction l generalizing acc with
  | nil => intro nm v h; exact hacc nm v (by simpa using h)
  | cons o t ih =>
    intro nm v h
    rw [List.foldl_cons] at h
    refine ih _ ?_ (fun o2 ho2 => hl o2 (List.mem_cons_of_mem _ ho2)) nm v h
    intro nm2 v2 h2
    have h2a : (nm2, v2) ∈ (match splitKey o.object_name with
        | some (nt, nm3) => dictSet acc nm3 (getModel b nm3 nt)
        | none => acc) := h2
    cases hsp : splitKey o.object_name with
    | none =>
      rw [hsp] at h2a
      exact hacc nm2 v2 h2a
    | some pr =>
      rw [hsp] at h2a
      obtain ⟨nt0, nm0⟩ := pr
      rcases mem_dictSet h2a with hold | ⟨he1, he2⟩
      · exact hacc nm2 v2 hold
      · subst he1
        exact ⟨o, hl o (List.mem_cons_self _ _), nt0, hsp, he2⟩

/-- Invariant of the `update_models` loop: a key already cached, or
obtainable by splitting a still-unprocessed object's key, is present
at the end. -/
theorem foldl_update_keys (b : Bucket) (l : List BucketObj) (acc : Cache) (nm : String)
    (h : nm ∈ acc.map Prod.fst ∨ ∃ o ∈ l, ∃ nt, splitKey o.object_name = some (nt, nm)) :
    nm ∈ (l.foldl (fun cache o =>
        match splitKey o.object_name with
        | some (nt, nm2) => dictSet cache nm2 (getModel b nm2 nt)
        | none => cache) acc).map Prod.fst := by
  induction l generalizing acc with
  | nil =>
    rcases h with h1 | ⟨o, ho, _⟩
    · simpa using h1
    · simp at ho
  | cons o t ih =>
    rw [List.foldl_cons]
    apply ih
    rcases h with h1 | ⟨o2, ho2, nt2, hsp2⟩
    · left
      show nm ∈ ((match splitKey o.object_name with
          | some (nt, nm2) => dictSet acc nm2 (getModel b nm2 nt)
          | none => acc) : Cache).map Prod.fst
      cases hsp : splitKey o.object_name with
      | none => exact h1
      | some pr =>
        obtain ⟨nt0, nm0⟩ := pr
        exact keys_sub_dictSet nm0 (getModel b nm0 nt0) h1
    · rcases List.mem_cons.mp ho2 with rfl | ho2t
      · left
        show nm ∈ ((match splitKey o2.object_name with
            | some (nt, nm2) => dictSet acc nm2 (getModel b nm2 nt)
            | none => acc) : Cache).map Prod.fst
        rw [hsp2]
        exact key_mem_dictSet acc nm (getModel b nm nt2)
      · exact Or.inr ⟨o2, ho2t, nt2, hsp2⟩

/-- Invariant of the `update_models` loop: cache keys stay
distinct. -/
theorem foldl_update_nodup (b : Bucket) (l : List BucketObj) (acc : Cache)
    (h : (acc.map Prod.fst).Nodup) :
    ((l.foldl (fun cache o =>
        match splitKey o.object_name with
        | some (nt, nm2) => dictSet cache nm2 (getModel b nm2 nt)
        | none => cache) acc).map Prod.fst).Nodup := by
  induction l generalizing acc with
  | nil => simpa using h
  | cons o t ih =>
    rw [List.foldl_cons]
    apply ih
    show (((match splitKey o.object_name with
        | some (nt, nm2) => dictSet acc nm2 (getModel b nm2 nt)
        | none => acc) : Cache).map Prod.fst).Nodup
    cases hsp : splitKey o.object_name with
    | none => exact h
    | some pr =>
      obtain ⟨nt0, nm0⟩ := pr
      exact nodup_keys_dictSet nm0 (getModel b nm0 nt0) h

/-- Corollary: provenance of every entry of a refreshed cache. -/
theorem updateModels_entry (b : Bucket) (nm : String) (v : Option InferenceModel)
    (h : (nm, v) ∈ updateModels b) :
    ∃ o ∈ getObjects b, ∃ nt, splitKey o.object_name = some (nt, nm) ∧
      v = getModel b nm nt := by
  unfold updateModels at h
  exact foldl_update_mem b (getObjects b) [] (by simp) (fun o ho => ho) nm v h

/-- Corollary: every listed object with a two-segment key leaves an
entry under its name after refresh. -/
theorem updateModels_covers (b : Bucket) (o : BucketObj) (ho : o ∈ getObjects b)
    (nt nm : String) (hsp : splitKey o.object_name = some (nt, nm)) :
    ∃ v, (nm, v) ∈ updateModels b := by
  apply mem_of_key_mem
  unfold updateModels
  exact foldl_update_keys b (getObjects b) [] nm (Or.inr ⟨o, ho, nt, hsp⟩)

/-- Corollary: the refreshed cache never has two entries with the
same name. -/
theorem updateModels_keys_nodup (b : Bucket) :
    ((updateModels b).map Prod.fst).Nodup := by
  unfold updateModels
  exact foldl_update_nodup b (getObjects b) [] (by simp)

/-- C1 (amended): `get` keeps the composite key as identity — for two
stored descriptors sharing a name, `get(name, t1)` and `get(name,
t2)` return the respective descriptors — but the refresh cache is
keyed by `name` alone (`self._models[name] = ...`), so after
`refresh()` the cache holds at most one entry per name and `list()`
contains only the descriptor of the object listed last, not both. -/
theorem C1_composite_key_identity :
    (∀ b : Bucket, ((updateModels b).map Prod.fst).Nodup) ∧
    getModel bkSameName "foo" "nnUNet" = some (StoredModel.parse smFooNNUNet) ∧
    getModel bkSameName "foo" "tensorflow" = some (StoredModel.parse smFooTF) ∧
    modelList (updateModels bkSameName) = some [StoredModel.parse smFooTF] :=
  ⟨updateModels_keys_nodup, by decide, by decide, by decide⟩

/-- C1 counterexample: with both `nnUNet/foo` and `tensorflow/foo`
stored, both `get` calls succeed, yet `list()` after `refresh()` is
the one-element list holding only the `tensorflow` descriptor. -/
theorem C1_counterexample :
    getModel bkSameName "foo" "nnUNet" = some (StoredModel.parse smFooNNUNet) ∧
    getModel bkSameName "foo" "tensorflow" = some (StoredModel.parse smFooTF) ∧
    modelList (updateModels bkSameName) = some [StoredModel.parse smFooTF] ∧
    StoredModel.parse smFooNNUNet ∉ [StoredModel.parse smFooTF] := by decide

/-- C2 (amended): `refresh()` always completes; every cache entry
originates from a listed object whose key splits into exactly two
segments (so key-malformed objects are excluded entirely) and holds
that name's `get_model` result; but an object with a well-formed key
whose body fails schema validation is not excluded — it leaves an
entry mapping its name to no descriptor (`None`), as the concrete
bucket `bkBadBody` shows. -/
theorem C2_refresh_skips_malformed :
    (∀ b : Bucket, ∀ nm v, (nm, v) ∈ updateModels b →
      ∃ o ∈ getObjects b, ∃ nt, splitKey o.object_name = some (nt, nm) ∧
        v = getModel b nm nt) ∧
    (∀ b : Bucket, ∀ o ∈ getObjects b, ∀ nt nm,
      splitKey o.object_name = some (nt, nm) →
      ∃ v, (nm, v) ∈ updateModels b) ∧
    updateModels bkBadBody = [("bad", none)] :=
  ⟨fun b nm v h => updateModels_entry b nm v h,
   fun b o ho nt nm hsp => updateModels_covers b o ho nt nm hsp,
   by decide⟩

/-- Witness for C2 at the concrete bucket `bkBadBody`. -/
theorem C2_witness :
    (∃ o ∈ getObjects bkBadBody, ∃ nt,
      splitKey o.object_name = some (nt, "bad") ∧
        (none : Option InferenceModel) = getModel bkBadBody "bad" nt) ∧
    (∃ v, ("bad", v) ∈ updateModels bkBadBody) :=
  ⟨C2_refresh_skips_malformed.1 bkBadBody "bad" none (by decide),
   C2_refresh_skips_malformed.2.1 bkBadBody ⟨"nnUNet/bad", false, .invalid 7⟩
     (by decide) "nnUNet" "bad" (by decide)⟩

/-- C2 counterexample: the bucket holding a single schema-invalid
object under key `nnUNet/bad` refreshes into a cache with an entry
for that malformed object (mapping `bad` to `None`), not into the
empty cache the claim demands. -/
theorem C2_counterexample :
    updateModels bkBadBody = [("bad", none)] ∧
    updateModels bkBadBody ≠ [] := by decide

/-- Characters with equal code points are equal. -/
theorem charEq_of_toNat_eq {a b : Char} (h : a.toNat = b.toNat) : a = b :=
  Char.ext (UInt32.ext h)

/-- Code-point comparison is irreflexive. -/
theorem strLtB_irrefl (l : List Char) : strLtB l l = false := by
  induction l with
  | nil => rfl
  | cons c cs ih => simp [strLtB, ih]

/-- Code-point comparison is asymmetric. -/
theorem strLtB_asymm : ∀ (a b : List Char), strLtB a b = true → strLtB b a = false := by
  intro a
  induction a with
  | nil =>
    intro b h
    cases b with
    | nil => simp [strLtB] at h
    | cons d ds => simp [strLtB]
  | cons c cs ih =>
    intro b h
    cases b with
    | nil => simp [strLtB] at h
    | cons d ds =>
      simp only [strLtB] at h ⊢
      by_cases h1 : c.toNat < d.toNat
      · have h2 : ¬ d.toNat < c.toNat := by omega
        simp [h1, h2]
      · by_cases h2 : d.toNat < c.toNat
        · rw [if_neg h1, if_pos h2] at h
          simp at h
        · rw [if_neg h1, if_neg h2] at h
          rw [if_neg h2, if_neg h1]
          exact ih ds h

/-- Code-point comparison is transitive. -/
theorem strLtB_trans : ∀ (a b c : List Char),
    strLtB a b = true → strLtB b c = true → strLtB a c = true := by
  intro a
  induction a with
  | nil =>
    intro b c hab hbc
    cases c with
    | nil =>
      cases b with
      | nil => simp [strLtB] at hab
      | cons d ds => simp [strLtB] at hbc
    | cons e es => simp [strLtB]
  | cons c0 cs ih =>
    intro b c hab hbc
    cases b with
    | nil => simp [strLtB] at hab
    | cons d ds =>
      cases c with
      | nil => simp [strLtB] at hbc
      | cons e es =>
        simp only [strLtB] at hab hbc ⊢
        by_cases h1 : c0.toNat < d.toNat
        · by_cases h2 : d.toNat < e.toNat
          · have : c0.toNat < e.toNat := by omega
            simp [this]
          · by_cases h3 : e.toNat < d.toNat
            · rw [if_neg h2, if_pos h3] at hbc
              simp at hbc
            · have : c0.toNat < e.toNat := by omega
              simp [this]
        · by_cases h4 : d.toNat < c0.toNat
          · rw [if_neg h1, if_pos h4] at hab
            simp at hab
          · rw [if_neg h1, if_neg h4] at hab
            by_cases h2 : d.toNat < e.toNat
            · have : c0.toNat < e.toNat := by omega
              simp [this]
            · by_cases h3 : e.toNat < d.toNat
              · rw [if_neg h2, if_pos h3] at hbc
                simp at hbc
              · rw [if_neg h2, if_neg h3] at hbc
                have he1 : ¬ c0.toNat < e.toNat := by omega
                have he2 : ¬ e.toNat < c0.toNat := by omega
                rw [if_neg he1, if_neg he2]
                exact ih ds es hab hbc

/-- Code-point comparison is connected: two lists neither of which
precedes the other are equal. -/
theorem strLtB_eq_of_not : ∀ (a b : List Char),
    strLtB a b = false → strLtB b a = false → a = b := by
  intro a
  induction a with
  | nil =>
    intro b h1 _
    cases b with
    | nil => rfl
    | cons d ds => simp [strLtB] at h1
  | cons c cs ih =>
    intro b h1 h2
    cases b with
    | nil => simp [strLtB] at h2
    | cons d ds =>
      simp only [strLtB] at h1 h2
      by_cases hc : c.toNat < d.toNat
      · rw [if_pos hc] at h1
        simp at h1
      · by_cases hd : d.toNat < c.toNat
        · rw [if_pos hd] at h2
          simp at h2
        · rw [if_neg hc, if_neg hd] at h1
          rw [if_neg hd, if_neg hc] at h2
          have hcd : c = d := charEq_of_toNat_eq (by omega)
          rw [hcd, ih ds h1 h2]

/-- `strLt` on strings: asymmetry. -/
theorem strLt_asymm {a b : String} (h : strLt a b = true) : strLt b a = false :=
  strLtB_asymm a.data b.data h

/-- `strLt` on strings: transitivity. -/
theorem strLt_trans {a b c : String} (h1 : strLt a b = true) (h2 : strLt b c = true) :
    strLt a c = true :=
  strLtB_trans a.data b.data c.data h1 h2

/-- `strLt` on strings: connectedness. -/
theorem strLt_eq_of_not {a b : String} (h1 : strLt a b = false) (h2 : strLt b a = false) :
    a = b :=
  String.ext (strLtB_eq_of_not a.data b.data h1 h2)

/-- `strLt` on strings: irreflexivity. -/
theorem strLt_irrefl (a : String) : strLt a a = false :=
  strLtB_irrefl a.data

/-- The tuple order of `model_list`'s sort key is total. -/
theorem modelLe_total : ∀ a b : InferenceModel, modelLe a b ∨ modelLe b a := by
  intro a b
  unfold modelLe
  by_cases h1 : strLt (modelKey a).1 (modelKey b).1 = true
  · exact Or.inl (Or.inl h1)
  · by_cases h2 : strLt (modelKey b).1 (modelKey a).1 = true
    · exact Or.inr (Or.inl h2)
    · have heq : (modelKey a).1 = (modelKey b).1 :=
        strLt_eq_of_not ((Bool.not_eq_true _) ▸ h1) ((Bool.not_eq_true _) ▸ h2)
      by_cases h3 : strLt (modelKey b).2 (modelKey a).2 = true
      · exact Or.inr (Or.inr ⟨heq.symm, strLt_asymm h3⟩)
      · exact Or.inl (Or.inr ⟨heq, (Bool.not_eq_true _) ▸ h3⟩)

/-- The tuple order of `model_list`'s sort key is transitive. -/
theorem modelLe_trans : ∀ a b c : InferenceModel,
    modelLe a b → modelLe b c → modelLe a c := by
  intro a b c hab hbc
  unfold modelLe at hab hbc ⊢
  rcases hab with h1 | ⟨e1, f1⟩
  · rcases hbc with h2 | ⟨e2, f2⟩
    · exact Or.inl (strLt_trans h1 h2)
    · exact Or.inl (e2 ▸ h1)
  · rcases hbc with h2 | ⟨e2, f2⟩
    · exact Or.inl (e1 ▸ h2)
    · refine Or.inr ⟨e1.trans e2, ?_⟩
      by_cases h3 : strLt (modelKey c).2 (modelKey a).2 = true
      · exfalso
        by_cases hA : strLt (modelKey a).2 (modelKey b).2 = true
        · by_cases hB : strLt (modelKey b).2 (modelKey c).2 = true
          · have h4 := strLt_trans (strLt_trans hA hB) h3
            simp [strLt_irrefl] at h4
          · have e3 : (modelKey b).2 = (modelKey c).2 :=
              strLt_eq_of_not ((Bool.not_eq_true _) ▸ hB) f2
            have h4 := strLt_trans (e3 ▸ hA) h3
            simp [strLt_irrefl] at h4
        · have e3 : (modelKey a).2 = (modelKey b).2 :=
            strLt_eq_of_not ((Bool.not_eq_true _) ▸ hA) f1
          by_cases hB : strLt (modelKey b).2 (modelKey c).2 = true
          · have h4 := strLt_trans (e3 ▸ hB) h3
            simp [strLt_irrefl] at h4
          · have e4 : (modelKey b).2 = (modelKey c).2 :=
              strLt_eq_of_not ((Bool.not_eq_true _) ▸ hB) f2
            have h4 : strLt (modelKey a).2 (modelKey a).2 = true := by
              rw [e3, e4] at h3 ⊢
              exact h3
            simp [strLt_irrefl] at h4
      · exact (Bool.not_eq_true _) ▸ h3

/-- Mutual `modelLe` forces equal sort keys. -/
theorem modelKey_eq_of_le_le (a b : InferenceModel)
    (h1 : modelLe a b) (h2 : modelLe b a) : modelKey a = modelKey b := by
  unfold modelLe at h1 h2
  rcases h1 with hlt1 | ⟨e1, f1⟩
  · rcases h2 with hlt2 | ⟨e2, f2⟩
    · have := strLt_asymm hlt2
      rw [hlt1] at this
      simp at this
    · rw [e2] at hlt1
      simp [strLt_irrefl] at hlt1
  · rcases h2 with hlt2 | ⟨e2, f2⟩
    · rw [e1] at hlt2
      simp [strLt_irrefl] at hlt2
    · have e3 : (modelKey a).2 = (modelKey b).2 := strLt_eq_of_not f2 f1
      rw [Prod.ext_iff]
      exact ⟨e1, e3⟩

/-- Two sorted permutations of each other whose sort keys are
pairwise distinct are equal (sortedness plus key distinctness
determines the list). -/
theorem sorted_keydistinct_unique : ∀ (l1 l2 : List InferenceModel),
    l1.Perm l2 → List.Sorted modelLe l1 → List.Sorted modelLe l2 →
    l1.Pairwise (fun a b => modelKey a ≠ modelKey b) → l1 = l2 := by
  intro l1
  induction l1 with
  | nil =>
    intro l2 hp _ _ _
    exact (hp.symm.eq_nil).symm
  | cons a t ih =>
    intro l2 hp hs1 hs2 hk
    cases l2 with
    | nil => simp at hp
    | cons b t2 =>
      have hab : a = b ∨ a ∈ t2 := by
        simpa using hp.mem_iff.mp (List.mem_cons_self a t)
      have hba : b = a ∨ b ∈ t := by
        simpa using hp.symm.mem_iff.mp (List.mem_cons_self b t2)
      have heq : a = b := by
        rcases hab with h | ha2
        · exact h
        rcases hba with h | hb2
        · exact h.symm
        have h1 : modelLe a b := (List.sorted_cons.mp hs1).1 b hb2
        have h2 : modelLe b a := (List.sorted_cons.mp hs2).1 a ha2
        have hkab : modelKey a ≠ modelKey b := (List.pairwise_cons.mp hk).1 b hb2
        exact absurd (modelKey_eq_of_le_le a b h1 h2) hkab
      subst heq
      have hp2 : t.Perm t2 := hp.cons_inv
      rw [ih t2 hp2 (List.sorted_cons.mp hs1).2 (List.sorted_cons.mp hs2).2
        (List.pairwise_cons.mp hk).2]

/-- `sorted(...)` applies the key to every cached value, so
`mapM Prod.snd` succeeding means every value is a descriptor, and the
collected list is exactly `filterMap Prod.snd`. -/
theorem mapM_snd_filterMap : ∀ (c : Cache) (vs : List InferenceModel),
    c.mapM (fun p => Prod.snd p) = some vs →
    c.filterMap (fun p => Prod.snd p) = vs := by
  intro c
  induction c with
  | nil =>
    intro vs h
    simp only [List.mapM_nil] at h
    simp at h
    simp [h]
  | cons p t ih =>
    intro vs h
    rw [List.mapM_cons] at h
    cases hp : p.2 with
    | none => rw [hp] at h; simp at h
    | some m =>
      rw [hp] at h
      cases ht : t.mapM (fun q => Prod.snd q) with
      | none => rw [ht] at h; simp at h
      | some ms =>
        rw [ht] at h
        simp at h
        rw [List.filterMap_cons, hp, ih ms ht]
        exact h

/-- C8: whenever `model_list` returns (that is, every cached value is
a descriptor), the returned list is sorted by `(network_type, name)`
ascending and is a permutation of the cached descriptors; and for
caches holding the same descriptors (in any order) with pairwise
distinct sort keys, the output is identical — the ordering does not
depend on insertion or load order. -/
theorem C8_list_sorted (c : Cache) (l : List InferenceModel)
    (h : modelList c = some l) :
    List.Sorted modelLe l ∧
    l.Perm (c.filterMap (fun p => Prod.snd p)) ∧
    (∀ c2 l2, modelList c2 = some l2 →
      (c2.filterMap (fun p => Prod.snd p)).Perm (c.filterMap (fun p => Prod.snd p)) →
      (c.filterMap (fun p => Prod.snd p)).Pairwise (fun a b => modelKey a ≠ modelKey b) →
      l2 = l) := by
  haveI : IsTotal InferenceModel modelLe := ⟨modelLe_total⟩
  haveI : IsTrans InferenceModel modelLe := ⟨modelLe_trans⟩
  unfold modelList at h
  rw [Option.map_eq_some'] at h
  obtain ⟨vs, hm, hsort⟩ := h
  have hfm : c.filterMap (fun p => Prod.snd p) = vs := mapM_snd_filterMap c vs hm
  have hsorted : List.Sorted modelLe l := hsort ▸ List.sorted_insertionSort modelLe vs
  have hperm : l.Perm vs := hsort ▸ List.perm_insertionSort modelLe vs
  refine ⟨hsorted, by rw [hfm]; exact hperm, ?_⟩
  intro c2 l2 h2 hp2 hkeys
  unfold modelList at h2
  rw [Option.map_eq_some'] at h2
  obtain ⟨vs2, hm2, hsort2⟩ := h2
  have hfm2 : c2.filterMap (fun p => Prod.snd p) = vs2 := mapM_snd_filterMap c2 vs2 hm2
  have hsorted2 : List.Sorted modelLe l2 := hsort2 ▸ List.sorted_insertionSort modelLe vs2
  have hperm2 : l2.Perm vs2 := hsort2 ▸ List.perm_insertionSort modelLe vs2
  have e1 : vs2.Perm vs := by
    rw [← hfm2, ← hfm]
    exact hp2
  have hll : l2.Perm l := (hperm2.trans e1).trans hperm.symm
  have hsymm : ∀ {x y : InferenceModel},
      modelKey x ≠ modelKey y → modelKey y ≠ modelKey x :=
    fun hxy e => hxy e.symm
  have hkeys_vs : vs.Pairwise (fun a b => modelKey a ≠ modelKey b) := hfm ▸ hkeys
  have hkl : l.Pairwise (fun a b => modelKey a ≠ modelKey b) :=
    (List.Perm.pairwise_iff hsymm hperm).mpr hkeys_vs
  have hkl2 : l2.Pairwise (fun a b => modelKey a ≠ modelKey b) :=
    (List.Perm.pairwise_iff hsymm hll).mpr hkl
  exact sorted_keydistinct_unique l2 l hll hsorted2 hsorted hkl2

/-- Witness for C8: a cache populated in reverse order still lists
sorted ascending by the `(network_type, name)` key. -/
theorem C8_witness :
    modelList cacheBA = some [dNameA, dNameB] ∧
    List.Sorted modelLe [dNameA, dNameB] :=
  ⟨by decide, (C8_list_sorted cacheBA [dNameA, dNameB] (by decide)).1⟩

/-- After `put_object`, the object at `path` is exactly the freshly
written one. -/
theorem find_putObject (b : Bucket) (path : String) (body : ObjBody) :
    (putObject b path body).find? (fun o => o.object_name == path) =
      some ⟨path, false, body⟩ := by
  induction b with
  | nil => simp [putObject, List.find?]
  | cons o t ih =>
    by_cases ho : (o.object_name == path) = true
    · have hc : ((o :: t).any (fun x => x.object_name == path)) = true := by
        simp [List.any_cons, ho]
      unfold putObject
      rw [if_pos hc, List.map_cons, if_pos ho]
      exact List.find?_cons_of_pos _ (by simp)
    · have ho2 : (o.object_name == path) = false := (Bool.not_eq_true _) ▸ ho
      by_cases ht : (t.any (fun x => x.object_name == path)) = true
      · have hc : ((o :: t).any (fun x => x.object_name == path)) = true := by
          simp [List.any_cons, ht]
        unfold putObject at ih ⊢
        rw [if_pos hc, List.map_cons, if_neg ho,
          @List.find?_cons_of_neg _ (fun x => x.object_name == path) o _ ho]
        rw [if_pos ht] at ih
        exact ih
      · have ht2 : (t.any (fun x => x.object_name == path)) = false :=
          (Bool.not_eq_true _) ▸ ht
        have hc : ¬ (((o :: t).any (fun x => x.object_name == path)) = true) := by
          simp [List.any_cons, ho2, ht2]
        unfold putObject at ih ⊢
        rw [if_neg hc, List.cons_append,
          @List.find?_cons_of_neg _ (fun x => x.object_name == path) o _ ho]
        rw [if_neg ht] at ih
        exact ih

/-- Serialize-then-decode stringifies the `contour_names` keys and
changes nothing else. -/
theorem parse_toStored (m : InferenceModel) :
    (m.toStored).parse = stringifyKeys m := by
  unfold InferenceModel.toStored StoredModel.parse stringifyKeys
  simp [List.map_map, Function.comp]

/-- The model validator commutes with contour-key stringification: it
never reads or writes `contour_names`. -/
theorem validateFields_stringify (m : InferenceModel) :
    validateFields (stringifyKeys m) = (validateFields m).map stringifyKeys := by
  unfold validateFields applyAlias applyArgs stringifyKeys
  by_cases ha : m.«alias».isEmpty <;> by_cases hi : m.inference_args.isEmpty <;>
    (cases hl : m.inference_information.lookup "inference_args" with
      | none => simp [ha, hi, hl]
      | some v => cases v <;> simp [ha, hi, hl])

/-- On descriptors whose contour keys are all strings,
stringification is the identity. -/
theorem stringifyKeys_id (m : InferenceModel)
    (h : ∀ kv ∈ m.contour_names, ∃ s, kv.1 = CKey.kstr s) :
    stringifyKeys m = m := by
  have hmap : ∀ (l : List (CKey × JVal)), (∀ kv ∈ l, ∃ s, kv.1 = CKey.kstr s) →
      l.map (fun kv => (CKey.kstr kv.1.toJsonKey, kv.2)) = l := by
    intro l hl
    induction l with
    | nil => rfl
    | cons kv t ih =>
      have hkv : (CKey.kstr (CKey.toJsonKey kv.1), kv.2) = kv := by
        obtain ⟨s, hs⟩ := hl kv (List.mem_cons_self _ _)
        rw [hs]
        show (CKey.kstr s, kv.2) = kv
        rw [← hs]
      rw [List.map_cons, hkv, ih (fun x hx => hl x (List.mem_cons_of_mem _ hx))]
  unfold stringifyKeys
  rw [hmap m.contour_names h]

/-- C9 (amended): for every schema-valid (validator-fixed) descriptor
`d`, `add(d, overwrite=true)` followed by `get(d.name,
d.network_type)` returns the descriptor with every schema field equal
to `d`'s except that integer `contour_names` keys come back as their
decimal strings (JSON object keys are strings); when every contour
key already is a string, the round trip returns `d` exactly. -/
theorem C9_roundtrip (s : DBState) (d : InferenceModel)
    (hv : validateFields d = some d) :
    getModel ((addModel s d true).2).bucket d.name (ntStr d.network_type) =
      some (stringifyKeys d) ∧
    ((∀ kv ∈ d.contour_names, ∃ str, kv.1 = CKey.kstr str) →
      getModel ((addModel s d true).2).bucket d.name (ntStr d.network_type) =
        some d) := by
  have hbucket : ((addModel s d true).2).bucket =
      putObject s.bucket (modelPath d) (.valid d.toStored) := rfl
  have hfind := find_putObject s.bucket (modelPath d) (.valid d.toStored)
  have hget : getModel (putObject s.bucket (modelPath d) (.valid d.toStored))
      d.name (ntStr d.network_type) = loadStored d.toStored := by
    unfold modelPath at hfind
    simp only [getModel, objectExists, modelPath]
    rw [hfind]
    simp [ObjBody.sizeNonzero]
  have hload : loadStored d.toStored = some (stringifyKeys d) := by
    unfold loadStored
    rw [parse_toStored, validateFields_stringify, hv]
    rfl
  constructor
  · rw [hbucket, hget, hload]
  · intro hstr
    rw [hbucket, hget, hload, stringifyKeys_id d hstr]

/-- Witness for C9 at a descriptor with a string contour key, added
to the empty repository. -/
theorem C9_witness :
    validateFields dStrKey = some dStrKey ∧
    getModel ((addModel ⟨[], []⟩ dStrKey true).2).bucket "foo" "nnUNet" =
      some dStrKey :=
  ⟨by decide, (C9_roundtrip ⟨[], []⟩ dStrKey (by decide)).2 (by
    intro kv hkv
    have hkv2 : kv = (CKey.kstr "a", JVal.vstr "GTV") := by
      simpa [dStrKey] using hkv
    exact ⟨"a", by rw [hkv2]⟩)⟩

/-- C9 counterexample: a schema-valid descriptor with the integer
contour key `1` does not round-trip to itself — the key comes back as
the string `"1"`. -/
theorem C9_counterexample :
    validateFields dIntKey = some dIntKey ∧
    getModel ((addModel ⟨[], []⟩ dIntKey true).2).bucket "foo" "nnUNet" ≠
      some dIntKey := by decide
